import Mathlib

/-!
Shallow embedding of the progressive, cache-aware record loaders of the
Sniperthinkv1/HRMS frontend, together with proofs about the claims of the
specification.

The two loaders live in
* src/frontend-tally-dashboard/src/components/HRAttendanceTracker.tsx
  (fetchAttendanceData, fetchRemainingRecords, the auto-load useEffect), and
* src/frontend-tally-dashboard/src/components/HRDirectory.tsx
  (refreshEmployeeData, fetchAllRemainingAtOnce, fetchRemainingEmployees).

Both loaders page through a backend endpoint in batches of BATCH_SIZE = 30,
inspect the performance.cached flag of responses, and either trickle-load in
batches (500 ms apart) or escalate to a single bulk request.  The embedding
models each loader as a deterministic driver over an abstract server
(a function from offset and limit to a response or a failure) and records the
full request trace: delay before issue, offset, limit, and - as a ghost
observation - the number of records accumulated at the moment of issue.

React state updates (setX) become record updates on an explicit state value.
The drivers evaluate the reactive guards at the quiescent points at which the
components evaluate them (after each fetch completes, when the loading and
loadingMore flags are back to false), matching the strictly sequential
scheduling of the source: each fetch is only scheduled after the prior one
resolves.
-/

namespace HRMS

/-- A record as the loaders see it: only the identity fields matter to the
merge logic.  Both components identify records by the numeric id and by the
employee string id (HRDirectory.tsx lines 152-154 builds one Set for each). -/
structure Rec where
  id : Nat
  employee_id : String
  deriving DecidableEq, Repr

/-- Two records have disjoint identity keys: distinct numeric ids and distinct
employee string ids. -/
def distinctIdentity (a b : Rec) : Prop :=
  a.id ≠ b.id ∧ a.employee_id ≠ b.employee_id

instance : DecidableRel distinctIdentity := fun a b => by
  unfold distinctIdentity; infer_instance

/-- The normalized shape of one page response:
{ results, total_count, has_more, performance.cached }.  The offset field of
the response is never read back by either component, so it is omitted. -/
structure Page where
  results : List Rec
  total_count : Nat
  has_more : Bool
  cached : Bool
  deriving DecidableEq, Repr

/-- Outcome of one apiCall: a network/HTTP failure (a thrown error or a
non-ok response) or a parsed page. -/
inductive FetchResult where
  | fail : FetchResult
  | ok : Page → FetchResult
  deriving DecidableEq, Repr

/-- The backend, abstracted: a function from (offset, limit) to an outcome.
Limit 0 is the "all remaining" sentinel of the attendance endpoint
(HRAttendanceTracker.tsx line 357). -/
def Server : Type := Nat → Nat → FetchResult

/-- The cached flag reported by an outcome (false for a failure). -/
def FetchResult.cachedFlag : FetchResult → Bool
  | .fail => false
  | .ok p => p.cached

/-- One issued request, as observed in the trace: the delay (ms) that
preceded it, the offset and limit query parameters, and the number of records
accumulated client-side at the moment it was issued (a ghost field used to
state the offset/progress claims). -/
structure Req where
  delayMs : Nat
  offset : Nat
  limit : Nat
  accAtIssue : Nat
  deriving DecidableEq, Repr

/-- Page size used by both components (BATCH_SIZE = 30). -/
def BATCH_SIZE : Nat := 30

/-! ## Attendance tracker (HRAttendanceTracker.tsx) -/

/-- The component state touched by the attendance loader:
attendanceData, error, totalCount, hasMore, offset. -/
structure ATState where
  attendanceData : List Rec
  error : Bool
  totalCount : Nat
  hasMore : Bool
  offset : Nat
  deriving DecidableEq, Repr

/-- State right after mount: empty data, no error, hasMore false, offset 0
(the useState initializers at lines 54-66). -/
def atInit : ATState :=
  { attendanceData := [], error := false, totalCount := 0,
    hasMore := false, offset := 0 }

/-- Success continuation of fetchAttendanceData(false) (the initial page of a
session, lines 232-308): set totalCount and hasMore from the response,
replace attendanceData with the page (no dedup), set offset to BATCH_SIZE,
clear the error; if the page carried zero records, set the error state and
replace attendanceData with the empty list (lines 288-308). -/
def atInitialMerge (p : Page) : ATState :=
  let base : ATState :=
    { attendanceData := p.results, error := false,
      totalCount := p.total_count, hasMore := p.has_more,
      offset := BATCH_SIZE }
  if p.results = [] then
    { base with error := true, attendanceData := [] }
  else base

/-- Success continuation of fetchAttendanceData(true) (a later trickle batch,
lines 232-308 with loadMore = true): set totalCount and hasMore, append the
page to attendanceData with no dedup (line 251), advance offset by
BATCH_SIZE, clear the error; if the page carried zero records, set the error
state and replace attendanceData with the empty list. -/
def atLoadMoreMerge (s : ATState) (p : Page) : ATState :=
  let base : ATState :=
    { s with attendanceData := s.attendanceData ++ p.results,
             error := false,
             totalCount := p.total_count, hasMore := p.has_more,
             offset := s.offset + BATCH_SIZE }
  if p.results = [] then
    { base with error := true, attendanceData := [] }
  else base

/-- Failure continuation of fetchAttendanceData (the catch at lines 310-321):
set the error state and replace attendanceData with the empty list; the
totalCount, hasMore and offset state is left as it was. -/
def atFetchFail (s : ATState) : ATState :=
  { s with error := true, attendanceData := [] }

/-- The auto-load effect (lines 389-399): while hasMore holds and some data
is present (and no fetch is running), wait 500 ms and run
fetchAttendanceData(true) at the current offset with limit BATCH_SIZE.
Fuel bounds the number of iterations; with enough fuel the recursion always
ends at a state from which the effect does not fire. -/
def atAuto (srv : Server) : Nat → ATState → ATState × List Req
  | 0, s => (s, [])
  | fuel + 1, s =>
    if s.hasMore = true ∧ s.attendanceData ≠ [] then
      let req : Req := ⟨500, s.offset, BATCH_SIZE, s.attendanceData.length⟩
      match srv s.offset BATCH_SIZE with
      | .fail =>
        -- after the catch the data is empty, so the effect guard fails and
        -- no further request is auto-issued
        let (s2, reqs) := atAuto srv fuel (atFetchFail s)
        (s2, req :: reqs)
      | .ok p =>
        let (s2, reqs) := atAuto srv fuel (atLoadMoreMerge s p)
        (s2, req :: reqs)
    else (s, [])

/-- One whole attendance session, driven from the initial
fetchAttendanceData() triggered by a filter effect (lines 402-454):
* issue the first page (offset 0, limit BATCH_SIZE);
* on failure, the session ends in the error state;
* on success, merge; if the response reports performance.cached together
  with has_more and total_count > BATCH_SIZE, a 100 ms timer issues
  fetchRemainingRecords(BATCH_SIZE, total_count) - one bulk request at
  offset BATCH_SIZE with limit 0, whose success appends the records, sets
  hasMore false and offset := total_count (lines 355-375), and whose failure
  restores hasMore := true (line 382), after which the auto-load effect
  takes over;
* otherwise the auto-load effect drives the trickle batches. -/
def atRun (srv : Server) (fuel : Nat) : ATState × List Req :=
  let req0 : Req := ⟨0, 0, BATCH_SIZE, 0⟩
  match srv 0 BATCH_SIZE with
  | .fail => (atFetchFail atInit, [req0])
  | .ok p =>
    let s1 := atInitialMerge p
    if p.cached = true ∧ p.has_more = true ∧ BATCH_SIZE < p.total_count then
      let req1 : Req := ⟨100, BATCH_SIZE, 0, s1.attendanceData.length⟩
      match srv BATCH_SIZE 0 with
      | .fail =>
        -- catch of fetchRemainingRecords: setHasMore(true), data kept;
        -- the auto-load effect then resumes trickle loading
        let (s2, reqs) := atAuto srv fuel { s1 with hasMore := true }
        (s2, req0 :: req1 :: reqs)
      | .ok bulk =>
        let s2 : ATState :=
          { s1 with attendanceData := s1.attendanceData ++ bulk.results,
                    hasMore := false, offset := p.total_count }
        let (s3, reqs) := atAuto srv fuel s2
        (s3, req0 :: req1 :: reqs)
    else
      let (s2, reqs) := atAuto srv fuel s1
      (s2, req0 :: reqs)

/-! ## Employee directory (HRDirectory.tsx) -/

/-- The component state touched by the directory loader:
employees, error, totalCount, hasMore, offset. -/
structure DirState where
  employees : List Rec
  error : Bool
  totalCount : Nat
  hasMore : Bool
  offset : Nat
  deriving DecidableEq, Repr

/-- The deduplicating append used by every later directory batch
(lines 151-161, 246-260, 376-390): drop an incoming record when an already
present record has the same numeric id or the same employee string id, then
append the survivors in arrival order. -/
def dirDedupAppend (prev batch : List Rec) : List Rec :=
  prev ++ batch.filter (fun e =>
    !(prev.any (fun p => p.id == e.id)) &&
    !(prev.any (fun p => p.employee_id == e.employee_id)))

/-- fetchAllRemainingAtOnce (lines 201-270): one request at startOffset with
limit equal to the remaining record count; on failure the state is left
unchanged (the catch and the !ok branch only log); on success the batch is
dedup-appended and hasMore is set to false.  The delay before the request
depends on the caller (100 ms from the initial load, 50 ms from mid-flight
escalation), so it is a parameter. -/
def fetchAllRemainingAtOnce (srv : Server) (s : DirState)
    (startOffset remainingCount delayMs : Nat) : DirState × List Req :=
  let req : Req := ⟨delayMs, startOffset, remainingCount, s.employees.length⟩
  match srv startOffset remainingCount with
  | .fail => (s, [req])
  | .ok p =>
    ({ s with employees := dirDedupAppend s.employees p.results,
              hasMore := false }, [req])

/-- fetchRemainingEmployees (lines 273-406): the background while-loop.
While currentOffset < total, request (currentOffset, BATCH_SIZE) after a
500 ms delay.  A failed request breaks the loop; both a break and the loop
running to exhaustion end with setHasMore(false) (line 404).  If the batch
reports performance.cached and it is the first loop iteration
(currentOffset === startOffset, line 290), the batch is merged and the rest
of the session is escalated to one fetchAllRemainingAtOnce call (lines
331-343), returning without the trailing setHasMore(false).  An empty batch
breaks the loop (line 346).  Otherwise the batch is dedup-appended and the
loop advances by BATCH_SIZE.  Fuel bounds the iteration count. -/
def dirLoop (srv : Server) (total startOffset : Nat) :
    Nat → Nat → DirState → DirState × List Req
  | fuel, cur, s =>
    if cur < total then
      match fuel with
      | 0 => (s, [])
      | fuel + 1 =>
        let req : Req := ⟨500, cur, BATCH_SIZE, s.employees.length⟩
        match srv cur BATCH_SIZE with
        | .fail => ({ s with hasMore := false }, [req])
        | .ok p =>
          if p.cached = true ∧ cur = startOffset then
            let s1 := { s with employees := dirDedupAppend s.employees p.results }
            let cur1 := cur + BATCH_SIZE
            let remaining := total - cur1
            if 0 < remaining then
              let (s2, reqs) := fetchAllRemainingAtOnce srv s1 cur1 remaining 50
              (s2, req :: reqs)
            else ({ s1 with hasMore := false }, [req])
          else if p.results = [] then
            ({ s with hasMore := false }, [req])
          else
            let s1 := { s with employees := dirDedupAppend s.employees p.results }
            let (s2, reqs) := dirLoop srv total startOffset fuel (cur + BATCH_SIZE) s1
            (s2, req :: reqs)
    else ({ s with hasMore := false }, [])

/-- State right after mount (useState initializers at lines 45-55). -/
def dirInit : DirState :=
  { employees := [], error := false, totalCount := 0,
    hasMore := false, offset := 0 }

/-- One whole directory session, driven from refreshEmployeeData() on mount
(lines 65-198):
* issue the first page (offset 0, limit BATCH_SIZE);
* on failure, only the error state is set (employees stay as they were);
* on success, replace employees with the page as received (no within-page
  dedup on the initial load, line 166), set totalCount, hasMore, offset;
  then, if the response reports performance.cached with has_more and
  total_count > BATCH_SIZE, a 100 ms timer runs
  fetchAllRemainingAtOnce(BATCH_SIZE, total_count - BATCH_SIZE)
  (lines 176-181); otherwise if has_more and total_count > BATCH_SIZE, a
  500 ms timer starts fetchRemainingEmployees(BATCH_SIZE, total_count)
  (lines 182-188). -/
def dirRun (srv : Server) (fuel : Nat) : DirState × List Req :=
  let req0 : Req := ⟨0, 0, BATCH_SIZE, 0⟩
  match srv 0 BATCH_SIZE with
  | .fail => ({ dirInit with error := true }, [req0])
  | .ok p =>
    let s1 : DirState :=
      { employees := p.results, error := false,
        totalCount := p.total_count, hasMore := p.has_more,
        offset := BATCH_SIZE }
    if p.cached = true ∧ p.has_more = true ∧ BATCH_SIZE < p.total_count then
      let (s2, reqs) :=
        fetchAllRemainingAtOnce srv s1 BATCH_SIZE (p.total_count - BATCH_SIZE) 100
      (s2, req0 :: reqs)
    else if p.has_more = true ∧ BATCH_SIZE < p.total_count then
      let (s2, reqs) := dirLoop srv p.total_count BATCH_SIZE fuel BATCH_SIZE s1
      (s2, req0 :: reqs)
    else (s1, [req0])

/-! ## Servers used in the theorems -/

/-- An honest paginated backend over a fixed record list db: a request at
(offset, limit) returns the corresponding slice of db (the whole remainder
when limit is the 0 sentinel), total_count = db.length, has_more exactly when
records remain past the returned slice, and the cached flag given by the
cached function of the offset.  No request fails. -/
def honestSrv (cached : Nat → Bool) (db : List Rec) : Server := fun o l =>
  let res := (db.drop o).take (if l = 0 then db.length - o else l)
  .ok { results := res, total_count := db.length,
        has_more := decide (o + res.length < db.length),
        cached := cached o }

/-- A backend that behaves like honestSrv except that every request at
failOffset fails. -/
def failAtSrv (failOffset : Nat) (cached : Nat → Bool) (db : List Rec) :
    Server := fun o l =>
  if o = failOffset then .fail else honestSrv cached db o l

/-- A concrete duplicate-free record list of length n: record i carries
numeric id i and employee string id the decimal representation of i. -/
def mkDb (n : Nat) : List Rec :=
  (List.range n).map (fun i => { id := i, employee_id := toString i })

/-- All records of a list are pairwise identity-disjoint. -/
def NoCollisions (l : List Rec) : Prop :=
  l.Pairwise distinctIdentity

instance : DecidablePred NoCollisions := fun l => by
  unfold NoCollisions; infer_instance

/-- Like mkDb n, but the record at position dupAt is replaced by a copy of
record 0, so the list carries one cross-page identity collision. -/
def mkDbDup (n dupAt : Nat) : List Rec :=
  (List.range n).map (fun i =>
    if i = dupAt then { id := 0, employee_id := toString 0 }
    else { id := i, employee_id := toString i })

/-! ## Racing the attendance tracker across filter changes

The attendance tracker has no session epoch: the success continuation of
fetchAttendanceData (lines 215-308) runs whenever its response resolves and
applies its state updates unconditionally - nothing in it compares the
filter the request was issued under with the filter that is current on
arrival.  The machine below makes the race observable: the state keeps the
list of in-flight initial-page requests, tagged (as a ghost observation
only - the code never reads the tag) with the filter value they were issued
under.  A filter change runs one of the filter effects (lines 402-454),
which call fetchAttendanceData(); its synchronous prefix resets offset to 0
and issues a request under the new filter.  Delivering response i runs the
stored continuation against the current state.  Only pages with
cached = false are delivered in the theorems below, so the branch of the
continuation that schedules fetchRemainingRecords (lines 266-271) is never
taken at those inputs; the bulk path itself is embedded in atRun. -/

/-- Attendance component state plus the in-flight request set and the
current filter value (filters are abstracted to numbers: only equality of
filter configurations matters). -/
structure ATAsync where
  filter : Nat
  attendanceData : List Rec
  error : Bool
  totalCount : Nat
  hasMore : Bool
  offset : Nat
  inflight : List (Nat × Nat × Nat)
  deriving DecidableEq, Repr

/-- Mount under filter f: the filter effect issues the initial fetch
(offset 0, limit BATCH_SIZE) at once. -/
def atAsyncStart (f : Nat) : ATAsync :=
  { filter := f, attendanceData := [], error := false, totalCount := 0,
    hasMore := false, offset := 0, inflight := [(f, 0, BATCH_SIZE)] }

/-- An externally scheduled event: the user changes the filter, or the
response of one in-flight request resolves with the given outcome. -/
inductive ATEvent where
  | changeFilter : Nat → ATEvent
  | deliver : Nat → FetchResult → ATEvent
  deriving DecidableEq, Repr

/-- One event step.  changeFilter f sets the new filter and runs
fetchAttendanceData() up to its await: offset := 0 (line 168) and a new
initial request goes in flight under f.  deliver i r removes the i-th
in-flight request and runs the response continuation against the current
state: the failure continuation is the catch (error set, data cleared), the
success continuation is the initial-page merge - and neither consults the
filter the request was issued under. -/
def atAsyncStep (s : ATAsync) : ATEvent → ATAsync
  | .changeFilter f =>
    { s with filter := f, offset := 0,
             inflight := s.inflight ++ [(f, 0, BATCH_SIZE)] }
  | .deliver i r =>
    if i < s.inflight.length then
      let s1 := { s with inflight := s.inflight.eraseIdx i }
      match r with
      | .fail => { s1 with error := true, attendanceData := [] }
      | .ok p =>
        if p.results = [] then
          { s1 with error := true, attendanceData := [],
                    totalCount := p.total_count, hasMore := p.has_more,
                    offset := BATCH_SIZE }
        else
          { s1 with error := false, attendanceData := p.results,
                    totalCount := p.total_count, hasMore := p.has_more,
                    offset := BATCH_SIZE }
    else s

/-- Run a list of events from a state. -/
def atAsyncRun (s : ATAsync) (evts : List ATEvent) : ATAsync :=
  evts.foldl atAsyncStep s

/-! ## Query parameters of a custom_month attendance session

fetchAttendanceData builds its query string at lines 174-207: for
filterType = custom_month the time_period parameter is rewritten to
"custom" (lines 176-181, marked FIX) and month and year are appended
(lines 187-191).  fetchRemainingRecords rebuilds the parameters at lines
334-357 for the same session, but appends time_period = filterType
verbatim, i.e. "custom_month", before the same month and year and the
all-remaining limit 0.  Month and year are assumed selected (the component
auto-selects the current month at lines 419-428 before fetching). -/

/-- Parameter tuple of the session-opening request of a custom_month
session. -/
def atInitialParamsCustomMonth (month year offset : Nat) :
    List (String × String) :=
  [("time_period", "custom"),
   ("month", toString month), ("year", toString year),
   ("offset", toString offset), ("limit", toString BATCH_SIZE)]

/-- Parameter tuple of the bulk-remainder request of the same custom_month
session. -/
def atRemainingParamsCustomMonth (month year offset : Nat) :
    List (String × String) :=
  [("time_period", "custom_month"),
   ("month", toString month), ("year", toString year),
   ("offset", toString offset), ("limit", "0")]

/-- Constantly-uncached cache signal. -/
def cacheNever : Nat → Bool := fun _ => false

/-- Constantly-cached cache signal. -/
def cacheAlways : Nat → Bool := fun _ => true

/-- Cache signal that reports a hit exactly for the request at offset k. -/
def cacheAt (k : Nat) : Nat → Bool := fun o => o == k

/-- Record returned by the stale session's response in the race traces. -/
def staleRec : Rec := { id := 999, employee_id := "stale" }

/-- Record returned by the fresh session's response in the race traces. -/
def freshRec : Rec := { id := 1, employee_id := "fresh" }

/-- The stale session's first-page response. -/
def stalePage : Page :=
  { results := [staleRec], total_count := 1, has_more := false,
    cached := false }

/-- The fresh session's first-page response. -/
def freshPage : Page :=
  { results := [freshRec], total_count := 1, has_more := false,
    cached := false }

/-- A response carrying zero records. -/
def emptyPage : Page :=
  { results := [], total_count := 5, has_more := false, cached := false }

end HRMS

namespace HRMS

/-! ## Helper lemmas about the dedup merge and honest pagination -/

/-- A record that survives the directory dedup filter collides with nothing
already present. -/
lemma mem_dedup_filter_fresh {prev batch : List Rec} {b : Rec}
    (hb : b ∈ batch.filter (fun e =>
      !(prev.any (fun p => p.id == e.id)) &&
      !(prev.any (fun p => p.employee_id == e.employee_id)))) :
    ∀ a ∈ prev, distinctIdentity a b := by
  intro a ha
  rcases List.mem_filter.mp hb with ⟨-, hpred⟩
  simp only [Bool.and_eq_true, Bool.not_eq_true', List.any_eq_false,
    beq_iff_eq, beq_eq_false_iff_ne, ne_eq] at hpred
  exact ⟨hpred.1 a ha, hpred.2 a ha⟩

/-- The dedup merge preserves the no-collision invariant: if the already
accumulated list and the incoming batch are each internally collision-free,
so is the merge result. -/
lemma dirDedupAppend_nocollide {prev batch : List Rec}
    (hp : NoCollisions prev) (hb : NoCollisions batch) :
    NoCollisions (dirDedupAppend prev batch) := by
  unfold dirDedupAppend NoCollisions
  rw [List.pairwise_append]
  refine ⟨hp, hb.filter _, ?_⟩
  intro a ha b hbmem
  exact mem_dedup_filter_fresh hbmem a ha

/-- When every incoming record is fresh with respect to the accumulated
list, the dedup filter drops nothing and the merge is a plain append. -/
lemma dirDedupAppend_eq_append {prev batch : List Rec}
    (h : ∀ b ∈ batch, ∀ a ∈ prev, distinctIdentity a b) :
    dirDedupAppend prev batch = prev ++ batch := by
  unfold dirDedupAppend
  congr 1
  apply List.filter_eq_self.mpr
  intro b hbmem
  simp only [Bool.and_eq_true, Bool.not_eq_true', List.any_eq_false,
    beq_iff_eq, beq_eq_false_iff_ne, ne_eq]
  exact ⟨fun p hp => (h b hbmem p hp).1, fun p hp => (h b hbmem p hp).2⟩

/-- In a collision-free list, any slice taken past position n is fresh with
respect to the first n records. -/
lemma slice_fresh_of_nocollisions {db : List Rec} (h : NoCollisions db)
    (n m : Nat) :
    ∀ b ∈ (db.drop n).take m, ∀ a ∈ db.take n, distinctIdentity a b := by
  intro b hbmem a hamem
  have hdb : db.take n ++ db.drop n = db := List.take_append_drop n db
  have hpair : ∀ a ∈ db.take n, ∀ b ∈ db.drop n, distinctIdentity a b := by
    have := (List.pairwise_append.mp (hdb ▸ h)).2.2
    exact this
  exact hpair a hamem b (List.take_subset m _ hbmem)

/-- Merging the next honest slice into the accumulated prefix extends the
prefix, provided the whole record list is collision-free. -/
lemma dedup_slice_step {db : List Rec} (h : NoCollisions db) (n m : Nat) :
    dirDedupAppend (db.take n) ((db.drop n).take m) =
      db.take n ++ (db.drop n).take m :=
  dirDedupAppend_eq_append (fun b hb a ha => slice_fresh_of_nocollisions h n m b hb a ha)

/-- Pages served by an honest backend over a collision-free record list are
internally collision-free. -/
lemma honestSrv_pages_nocollide {c : Nat → Bool} {db : List Rec}
    (h : NoCollisions db) :
    ∀ o l p, honestSrv c db o l = .ok p → NoCollisions p.results := by
  intro o l p hp
  unfold honestSrv at hp
  cases hp
  exact ((h.sublist (List.drop_sublist o db)).sublist (List.take_sublist _ _))

/-! ## The attendance trickle loop over an honest backend -/

/-- The auto-load effect does not fire when hasMore is false or no data is
present. -/
lemma atAuto_stopped {srv : Server} {fuel : Nat} {s : ATState}
    (h : s.hasMore = false ∨ s.attendanceData = []) :
    atAuto srv fuel s = (s, []) := by
  cases fuel with
  | zero => rfl
  | succ n =>
    rw [atAuto, if_neg]
    rintro ⟨h1, h2⟩
    rcases h with h | h
    · rw [h] at h1; exact Bool.false_ne_true h1
    · exact h2 h

/-- Trickle invariant of the attendance auto-load effect over an honest
backend: entered at a state holding exactly the first offset records of db,
with offset at least one batch, totalCount = db.length and hasMore tracking
whether records remain, the effect runs the session to completion - the
data becomes all of db, hasMore ends false, totalCount stays db.length, and
every auto-issued request carries offset equal to the number of records
accumulated when it was issued, limit BATCH_SIZE and the 500 ms delay. -/
lemma atAuto_honest (c : Nat → Bool) (db : List Rec) :
    ∀ fuel s, s.attendanceData = db.take s.offset →
      BATCH_SIZE ≤ s.offset →
      s.totalCount = db.length →
      s.hasMore = decide (s.offset < db.length) →
      db.length ≤ s.offset + BATCH_SIZE * fuel →
      (atAuto (honestSrv c db) fuel s).1.attendanceData = db ∧
      (atAuto (honestSrv c db) fuel s).1.hasMore = false ∧
      (atAuto (honestSrv c db) fuel s).1.totalCount = db.length ∧
      ∀ r ∈ (atAuto (honestSrv c db) fuel s).2,
        r.offset = r.accAtIssue ∧ r.limit = BATCH_SIZE ∧ r.delayMs = 500 := by
  intro fuel
  induction fuel with
  | zero =>
    intro s h1 h2 h3 h4 h5
    have hL : db.length ≤ s.offset := by
      simpa using h5
    have hdata : s.attendanceData = db := by
      rw [h1, List.take_of_length_le hL]
    simp [atAuto, hdata, h3, h4]
    omega
  | succ fuel ih =>
    intro s h1 h2 h3 h4 h5
    by_cases hlt : s.offset < db.length
    · have hhm : s.hasMore = true := by rw [h4]; simp [hlt]
      have hlen : s.attendanceData.length = s.offset := by
        rw [h1, List.length_take]; omega
      have hne : s.attendanceData ≠ [] := by
        intro hnil
        rw [hnil] at hlen
        simp only [List.length_nil] at hlen
        simp only [BATCH_SIZE] at h2
        omega
      have hpne : (db.drop s.offset).take BATCH_SIZE ≠ [] := by
        intro hnil
        have hl : ((db.drop s.offset).take BATCH_SIZE).length = 0 := by
          rw [hnil]; rfl
        rw [List.length_take, List.length_drop] at hl
        simp only [BATCH_SIZE] at hl
        omega
      have hres : honestSrv c db s.offset BATCH_SIZE =
          .ok { results := (db.drop s.offset).take BATCH_SIZE,
                total_count := db.length,
                has_more := decide (s.offset +
                  ((db.drop s.offset).take BATCH_SIZE).length < db.length),
                cached := c s.offset } := by
        simp [honestSrv, BATCH_SIZE]
      have hs' : atLoadMoreMerge s
          { results := (db.drop s.offset).take BATCH_SIZE,
            total_count := db.length,
            has_more := decide (s.offset +
              ((db.drop s.offset).take BATCH_SIZE).length < db.length),
            cached := c s.offset } =
          { attendanceData := db.take (s.offset + BATCH_SIZE), error := false,
            totalCount := db.length,
            hasMore := decide (s.offset + BATCH_SIZE < db.length),
            offset := s.offset + BATCH_SIZE } := by
        unfold atLoadMoreMerge
        rw [if_neg hpne]
        have hdata : s.attendanceData ++ (db.drop s.offset).take BATCH_SIZE =
            db.take (s.offset + BATCH_SIZE) := by
          rw [h1, ← List.take_add]
        have hlen2 : ((db.drop s.offset).take BATCH_SIZE).length =
            min BATCH_SIZE (db.length - s.offset) := by
          rw [List.length_take, List.length_drop]
        have hhm2 : decide (s.offset +
            ((db.drop s.offset).take BATCH_SIZE).length < db.length) =
            decide (s.offset + BATCH_SIZE < db.length) := by
          rw [hlen2]
          simp only [decide_eq_decide, BATCH_SIZE]
          omega
        simp only [hdata, hhm2]
      rcases hA : atAuto (honestSrv c db) fuel
          { attendanceData := db.take (s.offset + BATCH_SIZE), error := false,
            totalCount := db.length,
            hasMore := decide (s.offset + BATCH_SIZE < db.length),
            offset := s.offset + BATCH_SIZE } with ⟨s2, reqs⟩
      have hih := ih
        { attendanceData := db.take (s.offset + BATCH_SIZE), error := false,
          totalCount := db.length,
          hasMore := decide (s.offset + BATCH_SIZE < db.length),
          offset := s.offset + BATCH_SIZE }
        rfl (by simp only [BATCH_SIZE]; omega) rfl rfl
        (by simp only [BATCH_SIZE] at h5 ⊢; omega)
      rw [hA] at hih
      have hstep : atAuto (honestSrv c db) (fuel + 1) s =
          (s2, ⟨500, s.offset, BATCH_SIZE, s.attendanceData.length⟩ :: reqs) := by
        rw [atAuto]
        rw [if_pos ⟨hhm, hne⟩, hres]
        simp only [hs', hA]
      rw [hstep]
      refine ⟨hih.1, hih.2.1, hih.2.2.1, ?_⟩
      intro r hr
      rcases List.mem_cons.mp hr with hr | hr
      · subst hr
        exact ⟨hlen.symm, rfl, rfl⟩
      · exact hih.2.2.2 r hr
    · have hhm : s.hasMore = false := by rw [h4]; simp [hlt]
      have hdata : s.attendanceData = db := by
        rw [h1, List.take_of_length_le (by omega)]
      have hstep : atAuto (honestSrv c db) (fuel + 1) s = (s, []) := by
        rw [atAuto]
        rw [if_neg]
        rintro ⟨hcon, -⟩
        rw [hhm] at hcon
        exact Bool.false_ne_true hcon
      rw [hstep]
      exact ⟨hdata, hhm, h3, by simp⟩

/-- A whole attendance session over an honest backend (no failures, honest
counts, any pattern of cache hits) runs to completion: the accumulated data
is exactly db, hasMore ends false, totalCount is db.length, and every
request was issued at offset equal to the records accumulated at issue
time.  This covers the trickle-only path, the bulk-escalated path and every
mixed cache pattern. -/
lemma atRun_honest (c : Nat → Bool) (db : List Rec) (fuel : Nat)
    (hfuel : db.length ≤ BATCH_SIZE + BATCH_SIZE * fuel) :
    (atRun (honestSrv c db) fuel).1.attendanceData = db ∧
    (atRun (honestSrv c db) fuel).1.hasMore = false ∧
    (atRun (honestSrv c db) fuel).1.totalCount = db.length ∧
    ∀ r ∈ (atRun (honestSrv c db) fuel).2, r.offset = r.accAtIssue := by
  have hres0 : honestSrv c db 0 BATCH_SIZE =
      .ok { results := db.take BATCH_SIZE, total_count := db.length,
            has_more := decide ((db.take BATCH_SIZE).length < db.length),
            cached := c 0 } := by
    simp [honestSrv, BATCH_SIZE]
  by_cases hL : db.length = 0
  · have hdb : db = [] := List.eq_nil_of_length_eq_zero hL
    subst hdb
    have hstop := @atAuto_stopped (honestSrv c []) fuel
      { attendanceData := [], error := true, totalCount := 0,
        hasMore := false, offset := 30 }
      (Or.inr rfl)
    simp [atRun, honestSrv, atInitialMerge, BATCH_SIZE, hstop]
  · have hpos : 0 < db.length := Nat.pos_of_ne_zero hL
    have htake_ne : db.take BATCH_SIZE ≠ [] := by
      intro hnil
      have : (db.take BATCH_SIZE).length = 0 := by rw [hnil]; rfl
      rw [List.length_take] at this
      simp only [BATCH_SIZE] at this
      omega
    have hlen30 : (db.take BATCH_SIZE).length = min BATCH_SIZE db.length :=
      List.length_take _ _
    have hmerge : atInitialMerge
        { results := db.take BATCH_SIZE, total_count := db.length,
          has_more := decide ((db.take BATCH_SIZE).length < db.length),
          cached := c 0 } =
        { attendanceData := db.take BATCH_SIZE, error := false,
          totalCount := db.length,
          hasMore := decide ((db.take BATCH_SIZE).length < db.length),
          offset := BATCH_SIZE } := by
      unfold atInitialMerge
      rw [if_neg htake_ne]
    by_cases hbulk : c 0 = true ∧
        decide ((db.take BATCH_SIZE).length < db.length) = true ∧
        BATCH_SIZE < db.length
    · -- bulk-remainder path
      have h30 : BATCH_SIZE < db.length := hbulk.2.2
      have hdropAll : (db.drop BATCH_SIZE).take (db.length - BATCH_SIZE) =
          db.drop BATCH_SIZE :=
        List.take_of_length_le (le_of_eq (List.length_drop _ _))
      have hresBulk : honestSrv c db BATCH_SIZE 0 =
          .ok { results := db.drop BATCH_SIZE, total_count := db.length,
                has_more := decide (BATCH_SIZE +
                  (db.drop BATCH_SIZE).length < db.length),
                cached := c BATCH_SIZE } := by
        have hraw : honestSrv c db BATCH_SIZE 0 =
            .ok { results := (db.drop BATCH_SIZE).take (db.length - BATCH_SIZE),
                  total_count := db.length,
                  has_more := decide (BATCH_SIZE +
                    ((db.drop BATCH_SIZE).take
                      (db.length - BATCH_SIZE)).length < db.length),
                  cached := c BATCH_SIZE } := rfl
        rw [hraw, hdropAll]
      have hstep : atRun (honestSrv c db) fuel =
          ({ attendanceData := db.take BATCH_SIZE ++ db.drop BATCH_SIZE,
             error := false, totalCount := db.length, hasMore := false,
             offset := db.length },
           [⟨0, 0, BATCH_SIZE, 0⟩,
            ⟨100, BATCH_SIZE, 0, (db.take BATCH_SIZE).length⟩]) := by
        rw [atRun, hres0]
        simp only [hmerge]
        rw [if_pos hbulk, hresBulk]
        have hguard : atAuto (honestSrv c db) fuel
            { attendanceData := db.take BATCH_SIZE ++ db.drop BATCH_SIZE,
              error := false, totalCount := db.length, hasMore := false,
              offset := db.length } =
            ({ attendanceData := db.take BATCH_SIZE ++ db.drop BATCH_SIZE,
               error := false, totalCount := db.length, hasMore := false,
               offset := db.length }, []) := atAuto_stopped (Or.inl rfl)
        simp only [hguard]
      rw [hstep]
      refine ⟨List.take_append_drop _ _, rfl, rfl, ?_⟩
      intro r hr
      rcases List.mem_cons.mp hr with hr | hr
      · subst hr; rfl
      · rcases List.mem_cons.mp hr with hr | hr
        · subst hr
          show BATCH_SIZE = (db.take BATCH_SIZE).length
          rw [hlen30]
          simp only [BATCH_SIZE] at h30 ⊢
          omega
        · cases hr
    · -- no bulk: either the trickle loop runs, or the session is already done
      have hstep : atRun (honestSrv c db) fuel =
          (let s1 : ATState :=
            { attendanceData := db.take BATCH_SIZE, error := false,
              totalCount := db.length,
              hasMore := decide ((db.take BATCH_SIZE).length < db.length),
              offset := BATCH_SIZE }
           let (s2, reqs) := atAuto (honestSrv c db) fuel s1
           (s2, ⟨0, 0, BATCH_SIZE, 0⟩ :: reqs)) := by
        rw [atRun, hres0]
        simp only [hmerge]
        rw [if_neg hbulk]
      by_cases h30 : BATCH_SIZE < db.length
      · -- trickle loop
        have hhm : decide ((db.take BATCH_SIZE).length < db.length) = true := by
          rw [hlen30]; simp; omega
        have hauto := atAuto_honest c db fuel
          { attendanceData := db.take BATCH_SIZE, error := false,
            totalCount := db.length,
            hasMore := decide ((db.take BATCH_SIZE).length < db.length),
            offset := BATCH_SIZE }
          rfl (le_refl _) rfl
          (by rw [hhm]; simp [h30])
          (by simpa using hfuel)
        rcases hA : atAuto (honestSrv c db) fuel
            { attendanceData := db.take BATCH_SIZE, error := false,
              totalCount := db.length,
              hasMore := decide ((db.take BATCH_SIZE).length < db.length),
              offset := BATCH_SIZE } with ⟨s2, reqs⟩
        rw [hA] at hauto
        rw [hstep]
        simp only [hA]
        refine ⟨hauto.1, hauto.2.1, hauto.2.2.1, ?_⟩
        intro r hr
        rcases List.mem_cons.mp hr with hr | hr
        · subst hr; rfl
        · exact (hauto.2.2.2 r hr).1
      · -- the first page already holds everything
        have hall : db.take BATCH_SIZE = db :=
          List.take_of_length_le (by omega)
        have hhm : decide ((db.take BATCH_SIZE).length < db.length) = false := by
          rw [hall]; simp
        have hguard : atAuto (honestSrv c db) fuel
            { attendanceData := db.take BATCH_SIZE, error := false,
              totalCount := db.length,
              hasMore := decide ((db.take BATCH_SIZE).length < db.length),
              offset := BATCH_SIZE } =
            ({ attendanceData := db.take BATCH_SIZE, error := false,
               totalCount := db.length,
               hasMore := decide ((db.take BATCH_SIZE).length < db.length),
               offset := BATCH_SIZE }, []) := atAuto_stopped (Or.inl hhm)
        rw [hstep]
        simp only [hguard]
        refine ⟨hall, hhm, by trivial, ?_⟩
        intro r hr
        rcases List.mem_cons.mp hr with hr | hr
        · subst hr; rfl
        · cases hr

/-! ## The directory background loop over an honest backend -/

/-- The honest backend's answer to one trickle batch request. -/
lemma honestSrv_batch (c : Nat → Bool) (db : List Rec) (o : Nat) :
    honestSrv c db o BATCH_SIZE =
      .ok { results := (db.drop o).take BATCH_SIZE, total_count := db.length,
            has_more := decide (o +
              ((db.drop o).take BATCH_SIZE).length < db.length),
            cached := c o } := by
  simp [honestSrv, BATCH_SIZE]

/-- A trickle batch requested strictly below the end of db is nonempty. -/
lemma honest_batch_ne {db : List Rec} {o : Nat} (h : o < db.length) :
    (db.drop o).take BATCH_SIZE ≠ [] := by
  intro hnil
  have hlen : ((db.drop o).take BATCH_SIZE).length = 0 := by rw [hnil]; rfl
  rw [List.length_take, List.length_drop] at hlen
  simp only [BATCH_SIZE] at hlen
  omega

/-- Invariant of the directory background while-loop over an honest backend
on a collision-free record list: entered holding exactly the first cur
records, it runs the session to completion (employees = db, hasMore false)
whatever the cache-hit pattern is - pure trickle, or mid-flight escalation
on the first background batch - and every request it issues carries offset
equal to the number of records accumulated at issue time. -/
lemma dirLoop_honest (c : Nat → Bool) (db : List Rec)
    (hdb : NoCollisions db) (startOffset : Nat) :
    ∀ fuel cur s, s.employees = db.take cur →
      s.totalCount = db.length →
      s.error = false →
      db.length ≤ cur + BATCH_SIZE * fuel →
      (dirLoop (honestSrv c db) db.length startOffset fuel cur s).1.employees
          = db ∧
      (dirLoop (honestSrv c db) db.length startOffset fuel cur s).1.hasMore
          = false ∧
      (dirLoop (honestSrv c db) db.length startOffset fuel cur s).1.totalCount
          = db.length ∧
      (dirLoop (honestSrv c db) db.length startOffset fuel cur s).1.error
          = false ∧
      ∀ r ∈ (dirLoop (honestSrv c db) db.length startOffset fuel cur s).2,
        r.offset = r.accAtIssue := by
  intro fuel
  induction fuel with
  | zero =>
    intro cur s h1 h2 h3 h4
    have hcur : ¬ cur < db.length := by
      simp only [BATCH_SIZE] at h4; omega
    rw [dirLoop, if_neg hcur]
    refine ⟨?_, rfl, h2, h3, by simp⟩
    rw [h1, List.take_of_length_le (by omega)]
  | succ fuel ih =>
    intro cur s h1 h2 h3 h4
    by_cases hcur : cur < db.length
    · have hacc : s.employees.length = cur := by
        rw [h1, List.length_take]; omega
      have hpne : (db.drop cur).take BATCH_SIZE ≠ [] := honest_batch_ne hcur
      have hmerged : dirDedupAppend s.employees ((db.drop cur).take BATCH_SIZE)
          = db.take (cur + BATCH_SIZE) := by
        rw [h1, dedup_slice_step hdb, ← List.take_add]
      by_cases hcache : c cur = true ∧ cur = startOffset
      · -- mid-flight escalation on this batch
        by_cases hrem : 0 < db.length - (cur + BATCH_SIZE)
        · -- a bulk request covers everything past cur + BATCH_SIZE
          have hlt2 : cur + BATCH_SIZE < db.length := by omega
          have haccB : (db.take (cur + BATCH_SIZE)).length = cur + BATCH_SIZE := by
            rw [List.length_take]; omega
          have hdropAll : (db.drop (cur + BATCH_SIZE)).take
              (db.length - (cur + BATCH_SIZE)) = db.drop (cur + BATCH_SIZE) :=
            List.take_of_length_le (le_of_eq (List.length_drop _ _))
          have hbulkres : honestSrv c db (cur + BATCH_SIZE)
              (db.length - (cur + BATCH_SIZE)) =
              .ok { results := db.drop (cur + BATCH_SIZE),
                    total_count := db.length,
                    has_more := decide ((cur + BATCH_SIZE) +
                      (db.drop (cur + BATCH_SIZE)).length < db.length),
                    cached := c (cur + BATCH_SIZE) } := by
            have hne0 : ¬ db.length - (cur + BATCH_SIZE) = 0 := by omega
            simp only [honestSrv, if_neg hne0]
            rw [hdropAll]
          have hmerged2 : dirDedupAppend (db.take (cur + BATCH_SIZE))
              (db.drop (cur + BATCH_SIZE)) = db := by
            have := dedup_slice_step hdb (cur + BATCH_SIZE)
              (db.length - (cur + BATCH_SIZE))
            rw [hdropAll] at this
            rw [this, List.take_append_drop]
          have hstep : dirLoop (honestSrv c db) db.length startOffset
              (fuel + 1) cur s =
              ({ s with employees := db, hasMore := false },
               [⟨500, cur, BATCH_SIZE, s.employees.length⟩,
                ⟨50, cur + BATCH_SIZE, db.length - (cur + BATCH_SIZE),
                 (db.take (cur + BATCH_SIZE)).length⟩]) := by
            rw [dirLoop, if_pos hcur]
            simp only [honestSrv_batch]
            rw [if_pos ⟨hcache.1, hcache.2⟩]
            simp only [hmerged]
            rw [if_pos hrem]
            unfold fetchAllRemainingAtOnce
            rw [hbulkres]
            simp only [hmerged2]
          rw [hstep]
          refine ⟨rfl, rfl, h2, h3, ?_⟩
          intro r hr
          rcases List.mem_cons.mp hr with hr | hr
          · subst hr; exact hacc.symm
          · rcases List.mem_cons.mp hr with hr | hr
            · subst hr
              show cur + BATCH_SIZE = (db.take (cur + BATCH_SIZE)).length
              rw [haccB]
            · cases hr
        · -- this batch already reaches the end of db
          have hge : db.length ≤ cur + BATCH_SIZE := by omega
          have hstep : dirLoop (honestSrv c db) db.length startOffset
              (fuel + 1) cur s =
              ({ s with employees := db.take (cur + BATCH_SIZE),
                        hasMore := false },
               [⟨500, cur, BATCH_SIZE, s.employees.length⟩]) := by
            rw [dirLoop, if_pos hcur]
            simp only [honestSrv_batch]
            rw [if_pos ⟨hcache.1, hcache.2⟩]
            simp only [hmerged]
            rw [if_neg hrem]
          rw [hstep]
          refine ⟨?_, rfl, h2, h3, ?_⟩
          · show db.take (cur + BATCH_SIZE) = db
            exact List.take_of_length_le hge
          · intro r hr
            rcases List.mem_cons.mp hr with hr | hr
            · subst hr; exact hacc.symm
            · cases hr
      · -- ordinary trickle batch: merge and recurse
        have hstepRec :
            dirLoop (honestSrv c db) db.length startOffset (fuel + 1) cur s =
            (let s1 := { s with employees := db.take (cur + BATCH_SIZE) }
             let pr := dirLoop (honestSrv c db) db.length startOffset fuel
               (cur + BATCH_SIZE) s1
             (pr.1, ⟨500, cur, BATCH_SIZE, s.employees.length⟩ :: pr.2)) := by
          rw [dirLoop, if_pos hcur]
          simp only [honestSrv_batch]
          rw [if_neg hcache, if_neg hpne]
          simp only [hmerged]
        have hih := ih (cur + BATCH_SIZE)
          { s with employees := db.take (cur + BATCH_SIZE) }
          rfl h2 h3 (by simp only [BATCH_SIZE] at h4 ⊢; omega)
        rw [hstepRec]
        simp only []
        refine ⟨hih.1, hih.2.1, hih.2.2.1, hih.2.2.2.1, ?_⟩
        intro r hr
        rcases List.mem_cons.mp hr with hr | hr
        · subst hr; exact hacc.symm
        · exact hih.2.2.2.2 r hr
    · rw [dirLoop, if_neg hcur]
      refine ⟨?_, rfl, h2, h3, by simp⟩
      rw [h1, List.take_of_length_le (by omega)]

/-- A whole directory session over an honest backend on a collision-free
record list runs to completion whatever the cache-hit pattern: employees
ends as exactly db, hasMore false, totalCount = db.length, and every issued
request carries offset equal to the records accumulated at issue time.
This covers the trickle-only, bulk-escalated and mid-flight-escalated
paths. -/
lemma dirRun_honest (c : Nat → Bool) (db : List Rec) (hdb : NoCollisions db)
    (fuel : Nat) (hfuel : db.length ≤ BATCH_SIZE + BATCH_SIZE * fuel) :
    (dirRun (honestSrv c db) fuel).1.employees = db ∧
    (dirRun (honestSrv c db) fuel).1.hasMore = false ∧
    (dirRun (honestSrv c db) fuel).1.totalCount = db.length ∧
    (dirRun (honestSrv c db) fuel).1.error = false ∧
    ∀ r ∈ (dirRun (honestSrv c db) fuel).2, r.offset = r.accAtIssue := by
  have hres0 : honestSrv c db 0 BATCH_SIZE =
      .ok { results := db.take BATCH_SIZE, total_count := db.length,
            has_more := decide ((db.take BATCH_SIZE).length < db.length),
            cached := c 0 } := by
    have := honestSrv_batch c db 0
    simpa using this
  by_cases hbulk : c 0 = true ∧
      decide ((db.take BATCH_SIZE).length < db.length) = true ∧
      BATCH_SIZE < db.length
  · -- bulk-remainder path
    have h30 : BATCH_SIZE < db.length := hbulk.2.2
    have hlen30 : (db.take BATCH_SIZE).length = BATCH_SIZE := by
      rw [List.length_take]
      simp only [BATCH_SIZE] at h30 ⊢
      omega
    have hdropAll : (db.drop BATCH_SIZE).take (db.length - BATCH_SIZE) =
        db.drop BATCH_SIZE :=
      List.take_of_length_le (le_of_eq (List.length_drop _ _))
    have hbulkres : honestSrv c db BATCH_SIZE (db.length - BATCH_SIZE) =
        .ok { results := db.drop BATCH_SIZE, total_count := db.length,
              has_more := decide (BATCH_SIZE +
                (db.drop BATCH_SIZE).length < db.length),
              cached := c BATCH_SIZE } := by
      have hne0 : ¬ db.length - BATCH_SIZE = 0 := by omega
      simp only [honestSrv, if_neg hne0]
      rw [hdropAll]
    have hmerged : dirDedupAppend (db.take BATCH_SIZE) (db.drop BATCH_SIZE)
        = db := by
      have := dedup_slice_step hdb BATCH_SIZE (db.length - BATCH_SIZE)
      rw [hdropAll] at this
      rw [this, List.take_append_drop]
    have hstep : dirRun (honestSrv c db) fuel =
        ({ employees := db, error := false, totalCount := db.length,
           hasMore := false, offset := BATCH_SIZE },
         [⟨0, 0, BATCH_SIZE, 0⟩,
          ⟨100, BATCH_SIZE, db.length - BATCH_SIZE,
           (db.take BATCH_SIZE).length⟩]) := by
      simp only [dirRun, hres0]
      rw [if_pos hbulk]
      unfold fetchAllRemainingAtOnce
      rw [hbulkres]
      simp only [hmerged]
    rw [hstep]
    refine ⟨rfl, rfl, rfl, rfl, ?_⟩
    intro r hr
    rcases List.mem_cons.mp hr with hr | hr
    · subst hr; rfl
    · rcases List.mem_cons.mp hr with hr | hr
      · subst hr
        show BATCH_SIZE = (db.take BATCH_SIZE).length
        rw [hlen30]
      · cases hr
  · by_cases htrickle : decide ((db.take BATCH_SIZE).length < db.length) = true
        ∧ BATCH_SIZE < db.length
    · -- trickle path through the background loop
      have h30 : BATCH_SIZE < db.length := htrickle.2
      have hstep : dirRun (honestSrv c db) fuel =
          (let s1 : DirState :=
            { employees := db.take BATCH_SIZE, error := false,
              totalCount := db.length,
              hasMore := decide ((db.take BATCH_SIZE).length < db.length),
              offset := BATCH_SIZE }
           let pr := dirLoop (honestSrv c db) db.length BATCH_SIZE fuel
             BATCH_SIZE s1
           (pr.1, ⟨0, 0, BATCH_SIZE, 0⟩ :: pr.2)) := by
        simp only [dirRun, hres0]
        rw [if_neg hbulk, if_pos htrickle]
      have hih := dirLoop_honest c db hdb BATCH_SIZE fuel BATCH_SIZE
        { employees := db.take BATCH_SIZE, error := false,
          totalCount := db.length,
          hasMore := decide ((db.take BATCH_SIZE).length < db.length),
          offset := BATCH_SIZE }
        rfl rfl rfl (by simpa using hfuel)
      rw [hstep]
      simp only []
      refine ⟨hih.1, hih.2.1, hih.2.2.1, hih.2.2.2.1, ?_⟩
      intro r hr
      rcases List.mem_cons.mp hr with hr | hr
      · subst hr; rfl
      · exact hih.2.2.2.2 r hr
    · -- the first page already holds everything
      have hL : db.length ≤ BATCH_SIZE := by
        by_contra hgt
        push_neg at hgt
        have hlen : (db.take BATCH_SIZE).length = BATCH_SIZE := by
          rw [List.length_take]
          simp only [BATCH_SIZE] at hgt ⊢
          omega
        exact htrickle ⟨by rw [hlen]; simp [hgt], hgt⟩
    -- hasMore of the first page is then false
      have hhm : decide ((db.take BATCH_SIZE).length < db.length) = false := by
        rw [List.take_of_length_le hL]
        simp
      have hstep : dirRun (honestSrv c db) fuel =
          ({ employees := db.take BATCH_SIZE, error := false,
             totalCount := db.length,
             hasMore := decide ((db.take BATCH_SIZE).length < db.length),
             offset := BATCH_SIZE },
           [⟨0, 0, BATCH_SIZE, 0⟩]) := by
        simp only [dirRun, hres0]
        rw [if_neg hbulk, if_neg htrickle]
      rw [hstep]
      refine ⟨List.take_of_length_le hL, hhm, rfl, rfl, ?_⟩
      intro r hr
      rcases List.mem_cons.mp hr with hr | hr
      · subst hr; rfl
      · cases hr

/-! ## Offset monotonicity over an arbitrary backend -/

/-- Both branches of the later-batch merge advance the offset by one
batch. -/
lemma atLoadMoreMerge_offset (s : ATState) (p : Page) :
    (atLoadMoreMerge s p).offset = s.offset + BATCH_SIZE := by
  unfold atLoadMoreMerge
  split <;> rfl

/-- Whatever the backend does, the offsets of the requests issued by the
attendance auto-load effect form a non-decreasing sequence bounded below by
the entry offset. -/
lemma atAuto_offsets (srv : Server) :
    ∀ fuel s, List.Chain' (· ≤ ·) ((atAuto srv fuel s).2.map Req.offset) ∧
      ∀ r ∈ (atAuto srv fuel s).2, s.offset ≤ r.offset := by
  intro fuel
  induction fuel with
  | zero => intro s; simp [atAuto]
  | succ fuel ih =>
    intro s
    by_cases hc : s.hasMore = true ∧ s.attendanceData ≠ []
    · rw [atAuto, if_pos hc]
      cases hsrv : srv s.offset BATCH_SIZE with
      | fail =>
        rcases hA : atAuto srv fuel (atFetchFail s) with ⟨s2, reqs⟩
        have hih := ih (atFetchFail s)
        rw [hA] at hih
        simp only [hA]
        have hlow : ∀ r ∈ reqs, s.offset ≤ r.offset := fun r hr => hih.2 r hr
        constructor
        · rw [List.map_cons]
          apply List.chain'_cons'.mpr
          refine ⟨?_, hih.1⟩
          intro b hb
          rcases reqs with _ | ⟨r0, rest⟩
          · simp at hb
          · simp only [List.map_cons, List.head?_cons, Option.mem_def,
              Option.some_inj] at hb
            subst hb
            exact hlow r0 (by simp)
        · intro r hr
          rcases List.mem_cons.mp hr with hr | hr
          · subst hr; exact le_refl _
          · exact hlow r hr
      | ok p =>
        rcases hA : atAuto srv fuel (atLoadMoreMerge s p) with ⟨s2, reqs⟩
        have hih := ih (atLoadMoreMerge s p)
        rw [hA] at hih
        simp only [hA]
        have hlow : ∀ r ∈ reqs, s.offset ≤ r.offset := by
          intro r hr
          have := hih.2 r hr
          rw [atLoadMoreMerge_offset] at this
          omega
        constructor
        · rw [List.map_cons]
          apply List.chain'_cons'.mpr
          refine ⟨?_, hih.1⟩
          intro b hb
          rcases reqs with _ | ⟨r0, rest⟩
          · simp at hb
          · simp only [List.map_cons, List.head?_cons, Option.mem_def,
              Option.some_inj] at hb
            subst hb
            exact hlow r0 (by simp)
        · intro r hr
          rcases List.mem_cons.mp hr with hr | hr
          · subst hr; exact le_refl _
          · exact hlow r hr
    · rw [atAuto, if_neg hc]
      simp

/-- Both branches of the initial merge set the offset to one batch. -/
lemma atInitialMerge_offset (p : Page) :
    (atInitialMerge p).offset = BATCH_SIZE := by
  unfold atInitialMerge
  split <;> rfl

/-- Whatever the backend does, the offsets requested within one attendance
session are non-decreasing: 0 for the initial page, BATCH_SIZE for the bulk
request, and ever-growing offsets for the trickle batches. -/
lemma atRun_offsets (srv : Server) (fuel : Nat) :
    List.Chain' (· ≤ ·) ((atRun srv fuel).2.map Req.offset) := by
  cases hsrv : srv 0 BATCH_SIZE with
  | fail => simp [atRun, hsrv]
  | ok p =>
    simp only [atRun, hsrv]
    by_cases hb : p.cached = true ∧ p.has_more = true ∧
        BATCH_SIZE < p.total_count
    · rw [if_pos hb]
      cases hbulk : srv BATCH_SIZE 0 with
      | fail =>
        rcases hA : atAuto srv fuel
            { atInitialMerge p with hasMore := true } with ⟨s2, reqs⟩
        have hoff : ({ atInitialMerge p with hasMore := true } : ATState).offset
            = BATCH_SIZE := atInitialMerge_offset p
        have hlow := (atAuto_offsets srv fuel
          { atInitialMerge p with hasMore := true }).2
        have hchain := (atAuto_offsets srv fuel
          { atInitialMerge p with hasMore := true }).1
        rw [hA] at hlow hchain
        simp only [hA]
        rw [List.map_cons, List.map_cons]
        apply List.chain'_cons'.mpr
        refine ⟨by intro b hb2; simp, ?_⟩
        apply List.chain'_cons'.mpr
        refine ⟨?_, hchain⟩
        intro b hb2
        rcases reqs with _ | ⟨r0, rest⟩
        · simp at hb2
        · simp only [List.map_cons, List.head?_cons, Option.mem_def,
            Option.some_inj] at hb2
          subst hb2
          have := hlow r0 (by simp)
          rw [hoff] at this
          exact this
      | ok bulk =>
        rcases hA : atAuto srv fuel
            { atInitialMerge p with
              attendanceData := (atInitialMerge p).attendanceData ++ bulk.results,
              hasMore := false, offset := p.total_count } with ⟨s2, reqs⟩
        have hstop : atAuto srv fuel
            { atInitialMerge p with
              attendanceData := (atInitialMerge p).attendanceData ++ bulk.results,
              hasMore := false, offset := p.total_count } =
            ({ atInitialMerge p with
               attendanceData := (atInitialMerge p).attendanceData ++ bulk.results,
               hasMore := false, offset := p.total_count }, []) :=
          atAuto_stopped (Or.inl rfl)
        rw [hstop] at hA
        cases hA
        simp only [hstop]
        rw [List.map_cons, List.map_cons, List.map_nil]
        apply List.chain'_cons'.mpr
        refine ⟨by intro b hb2; simp, ?_⟩
        simp
    · rw [if_neg hb]
      rcases hA : atAuto srv fuel (atInitialMerge p) with ⟨s2, reqs⟩
      have hlow := (atAuto_offsets srv fuel (atInitialMerge p)).2
      have hchain := (atAuto_offsets srv fuel (atInitialMerge p)).1
      rw [hA] at hlow hchain
      simp only [hA]
      rw [List.map_cons]
      apply List.chain'_cons'.mpr
      refine ⟨?_, hchain⟩
      intro b hb2
      rcases reqs with _ | ⟨r0, rest⟩
      · simp at hb2
      · simp only [List.map_cons, List.head?_cons, Option.mem_def,
          Option.some_inj] at hb2
        subst hb2
        simp

/-- Whatever the backend does, the offsets of the requests issued by the
directory background loop are non-decreasing and bounded below by the
entry offset. -/
lemma dirLoop_offsets (srv : Server) (total startOffset : Nat) :
    ∀ fuel cur s,
      List.Chain' (· ≤ ·)
        ((dirLoop srv total startOffset fuel cur s).2.map Req.offset) ∧
      ∀ r ∈ (dirLoop srv total startOffset fuel cur s).2, cur ≤ r.offset := by
  intro fuel
  induction fuel with
  | zero =>
    intro cur s
    rw [dirLoop]
    split <;> simp
  | succ fuel ih =>
    intro cur s
    by_cases hcur : cur < total
    · rw [dirLoop, if_pos hcur]
      cases hsrv : srv cur BATCH_SIZE with
      | fail => simp
      | ok p =>
        dsimp only
        by_cases hcache : p.cached = true ∧ cur = startOffset
        · rw [if_pos hcache]
          by_cases hrem : 0 < total - (cur + BATCH_SIZE)
          · rw [if_pos hrem]
            unfold fetchAllRemainingAtOnce
            cases hbulk : srv (cur + BATCH_SIZE) (total - (cur + BATCH_SIZE))
              with
            | fail =>
              refine ⟨?_, ?_⟩
              · simp only [List.map_cons, List.map_nil]
                apply List.chain'_cons'.mpr
                exact ⟨by intro b hb2; simp at hb2; omega, by simp⟩
              · intro r hr
                rcases List.mem_cons.mp hr with hr | hr
                · subst hr; exact le_refl _
                · rcases List.mem_cons.mp hr with hr | hr
                  · subst hr; (try dsimp only); omega
                  · cases hr
            | ok q =>
              refine ⟨?_, ?_⟩
              · simp only [List.map_cons, List.map_nil]
                apply List.chain'_cons'.mpr
                exact ⟨by intro b hb2; simp at hb2; omega, by simp⟩
              · intro r hr
                rcases List.mem_cons.mp hr with hr | hr
                · subst hr; exact le_refl _
                · rcases List.mem_cons.mp hr with hr | hr
                  · subst hr; (try dsimp only); omega
                  · cases hr
          · rw [if_neg hrem]
            exact ⟨by simp, by intro r hr; rcases List.mem_cons.mp hr with hr | hr
                               · subst hr; exact le_refl _
                               · cases hr⟩
        · rw [if_neg hcache]
          by_cases hemp : p.results = []
          · rw [if_pos hemp]
            exact ⟨by simp, by intro r hr; rcases List.mem_cons.mp hr with hr | hr
                               · subst hr; exact le_refl _
                               · cases hr⟩
          · rw [if_neg hemp]
            rcases hA : dirLoop srv total startOffset fuel (cur + BATCH_SIZE)
                { s with employees :=
                    dirDedupAppend s.employees p.results } with ⟨s2, reqs⟩
            have hih := ih (cur + BATCH_SIZE)
              { s with employees := dirDedupAppend s.employees p.results }
            rw [hA] at hih
            simp only [hA]
            refine ⟨?_, ?_⟩
            · rw [List.map_cons]
              apply List.chain'_cons'.mpr
              refine ⟨?_, hih.1⟩
              intro b hb2
              rcases reqs with _ | ⟨r0, rest⟩
              · simp at hb2
              · simp only [List.map_cons, List.head?_cons, Option.mem_def,
                  Option.some_inj] at hb2
                subst hb2
                have := hih.2 r0 (by simp)
                (try dsimp only)
                omega
            · intro r hr
              rcases List.mem_cons.mp hr with hr | hr
              · subst hr; exact le_refl _
              · have := hih.2 r hr
                omega
    · rw [dirLoop, if_neg hcur]
      simp

/-- Whatever the backend does, the offsets requested within one directory
session are non-decreasing. -/
lemma dirRun_offsets (srv : Server) (fuel : Nat) :
    List.Chain' (· ≤ ·) ((dirRun srv fuel).2.map Req.offset) := by
  cases hsrv : srv 0 BATCH_SIZE with
  | fail => simp [dirRun, hsrv]
  | ok p =>
    simp only [dirRun, hsrv]
    by_cases hb : p.cached = true ∧ p.has_more = true ∧
        BATCH_SIZE < p.total_count
    · rw [if_pos hb]
      unfold fetchAllRemainingAtOnce
      cases hbulk : srv BATCH_SIZE (p.total_count - BATCH_SIZE) with
      | fail =>
        simp only [List.map_cons, List.map_nil]
        apply List.chain'_cons'.mpr
        exact ⟨by intro b hb2; simp at hb2; omega, by simp⟩
      | ok q =>
        simp only [List.map_cons, List.map_nil]
        apply List.chain'_cons'.mpr
        exact ⟨by intro b hb2; simp at hb2; omega, by simp⟩
    · rw [if_neg hb]
      by_cases ht : p.has_more = true ∧ BATCH_SIZE < p.total_count
      · rw [if_pos ht]
        rcases hA : dirLoop srv p.total_count BATCH_SIZE fuel BATCH_SIZE
            { employees := p.results, error := false,
              totalCount := p.total_count, hasMore := p.has_more,
              offset := BATCH_SIZE } with ⟨s2, reqs⟩
        have hlp := dirLoop_offsets srv p.total_count BATCH_SIZE fuel
          BATCH_SIZE
          { employees := p.results, error := false,
            totalCount := p.total_count, hasMore := p.has_more,
            offset := BATCH_SIZE }
        rw [hA] at hlp
        simp only [hA]
        rw [List.map_cons]
        apply List.chain'_cons'.mpr
        refine ⟨?_, hlp.1⟩
        intro b hb2
        rcases reqs with _ | ⟨r0, rest⟩
        · simp at hb2
        · simp only [List.map_cons, List.head?_cons, Option.mem_def,
            Option.some_inj] at hb2
          subst hb2
          have := hlp.2 r0 (by simp)
          (try dsimp only)
          omega
      · rw [if_neg ht]
        simp

/-! ## The directory dedup invariant over an arbitrary backend -/

/-- The one-shot remainder fetch preserves the no-collision invariant when
the backend only serves internally collision-free pages. -/
lemma fetchAllRemainingAtOnce_nocollide {srv : Server} {s : DirState}
    {startOffset remaining delay : Nat}
    (hsrv : ∀ o l p, srv o l = .ok p → NoCollisions p.results)
    (hs : NoCollisions s.employees) :
    NoCollisions
      (fetchAllRemainingAtOnce srv s startOffset remaining delay).1.employees
    := by
  unfold fetchAllRemainingAtOnce
  cases hres : srv startOffset remaining with
  | fail => exact hs
  | ok p => exact dirDedupAppend_nocollide hs (hsrv _ _ _ hres)

/-- The background loop preserves the no-collision invariant when the
backend only serves internally collision-free pages. -/
lemma dirLoop_nocollide (srv : Server) (total startOffset : Nat)
    (hsrv : ∀ o l p, srv o l = .ok p → NoCollisions p.results) :
    ∀ fuel cur s, NoCollisions s.employees →
      NoCollisions (dirLoop srv total startOffset fuel cur s).1.employees := by
  intro fuel
  induction fuel with
  | zero =>
    intro cur s hs
    rw [dirLoop]
    split
    · exact hs
    · exact hs
  | succ fuel ih =>
    intro cur s hs
    by_cases hcur : cur < total
    · rw [dirLoop, if_pos hcur]
      cases hres : srv cur BATCH_SIZE with
      | fail => exact hs
      | ok p =>
        dsimp only
        have hmerge : NoCollisions (dirDedupAppend s.employees p.results) :=
          dirDedupAppend_nocollide hs (hsrv _ _ _ hres)
        by_cases hcache : p.cached = true ∧ cur = startOffset
        · rw [if_pos hcache]
          by_cases hrem : 0 < total - (cur + BATCH_SIZE)
          · rw [if_pos hrem]
            rcases hB : fetchAllRemainingAtOnce srv
                { s with employees := dirDedupAppend s.employees p.results }
                (cur + BATCH_SIZE) (total - (cur + BATCH_SIZE)) 50
              with ⟨s2, reqs⟩
            have := @fetchAllRemainingAtOnce_nocollide srv
              { s with employees := dirDedupAppend s.employees p.results }
              (cur + BATCH_SIZE) (total - (cur + BATCH_SIZE)) 50 hsrv hmerge
            rw [hB] at this
            simpa [hB] using this
          · rw [if_neg hrem]
            exact hmerge
        · rw [if_neg hcache]
          by_cases hemp : p.results = []
          · rw [if_pos hemp]
            exact hs
          · rw [if_neg hemp]
            rcases hA : dirLoop srv total startOffset fuel (cur + BATCH_SIZE)
                { s with employees := dirDedupAppend s.employees p.results }
              with ⟨s2, reqs⟩
            have := ih (cur + BATCH_SIZE)
              { s with employees := dirDedupAppend s.employees p.results }
              hmerge
            rw [hA] at this
            simpa [hA] using this
    · rw [dirLoop, if_neg hcur]
      exact hs

/-! ## Claim theorems -/

set_option maxRecDepth 40000

/-- C1, counterexample.  The claim asserts that every reachable accumulated
set is free of identity collisions.  The attendance tracker appends later
pages with no dedup whatsoever (HRAttendanceTracker.tsx line 251), so when
the backend repeats a record across pages (here an honest paginated read of
a table whose row 30 duplicates row 0) the completed session holds two
records with the same id and the same employee_id. -/
theorem C1_counterexample :
    ¬ NoCollisions
        (atRun (honestSrv cacheNever (mkDbDup 31 30)) 9).1.attendanceData ∧
    (atRun (honestSrv cacheNever (mkDbDup 31 30)) 9).1.attendanceData.length
        = 31 ∧
    (atRun (honestSrv cacheNever (mkDbDup 31 30)) 9).1.hasMore = false := by
  decide

/-- C1, amended.  The no-collision invariant does hold for the employee
directory loader: as long as every page the backend serves is internally
collision-free, every session state it produces has a collision-free
accumulated set, because every later batch is filtered against both
identity keys before being appended.  (The attendance tracker offers no
such guarantee - see the counterexample.) -/
theorem C1_directory_dedup_invariant (srv : Server) (fuel : Nat)
    (hsrv : ∀ o l p, srv o l = .ok p → NoCollisions p.results) :
    NoCollisions (dirRun srv fuel).1.employees := by
  cases hres : srv 0 BATCH_SIZE with
  | fail =>
    simp [dirRun, hres, dirInit, NoCollisions]
  | ok p =>
    simp only [dirRun, hres]
    have hp := hsrv _ _ _ hres
    by_cases hb : p.cached = true ∧ p.has_more = true ∧
        BATCH_SIZE < p.total_count
    · rw [if_pos hb]
      rcases hB : fetchAllRemainingAtOnce srv
          { employees := p.results, error := false,
            totalCount := p.total_count, hasMore := p.has_more,
            offset := BATCH_SIZE }
          BATCH_SIZE (p.total_count - BATCH_SIZE) 100 with ⟨s2, reqs⟩
      have hkeep := @fetchAllRemainingAtOnce_nocollide srv
        { employees := p.results, error := false,
          totalCount := p.total_count, hasMore := p.has_more,
          offset := BATCH_SIZE }
        BATCH_SIZE (p.total_count - BATCH_SIZE) 100 hsrv hp
      rw [hB] at hkeep
      simpa [hB] using hkeep
    · rw [if_neg hb]
      by_cases ht : p.has_more = true ∧ BATCH_SIZE < p.total_count
      · rw [if_pos ht]
        rcases hA : dirLoop srv p.total_count BATCH_SIZE fuel BATCH_SIZE
            { employees := p.results, error := false,
              totalCount := p.total_count, hasMore := p.has_more,
              offset := BATCH_SIZE } with ⟨s2, reqs⟩
        have hkeep := dirLoop_nocollide srv p.total_count BATCH_SIZE hsrv
          fuel BATCH_SIZE
          { employees := p.results, error := false,
            totalCount := p.total_count, hasMore := p.has_more,
            offset := BATCH_SIZE } hp
        rw [hA] at hkeep
        simpa [hA] using hkeep
      · rw [if_neg ht]
        exact hp

/-- C1, witness for the amended theorem at a concrete honest backend. -/
theorem C1_directory_dedup_invariant_witness :
    NoCollisions (dirRun (honestSrv cacheNever (mkDb 75)) 9).1.employees :=
  C1_directory_dedup_invariant (honestSrv cacheNever (mkDb 75)) 9
    (honestSrv_pages_nocollide (by decide))

/-- C2, counterexample.  The claim asserts that a later-batch failure leaves
the already-accumulated records in place.  In the attendance tracker the
catch handler (lines 310-321) clears attendanceData entirely: in a
130-record session whose batch at offset 60 fails, 60 records had been
accumulated at the moment the failing request was issued (the accAtIssue
trace shows 0, 30, 60), yet the final accumulated set is empty. -/
theorem C2_counterexample :
    (atRun (failAtSrv 60 cacheNever (mkDb 130)) 9).1.attendanceData = [] ∧
    (atRun (failAtSrv 60 cacheNever (mkDb 130)) 9).1.error = true ∧
    (atRun (failAtSrv 60 cacheNever (mkDb 130)) 9).2.map Req.accAtIssue
        = [0, 30, 60] := by
  decide

/-- C2, amended.  On a later trickle-batch failure no further fetch is
auto-issued by either component, but the rest of the claim splits: the
directory keeps its 60 accumulated records and issues no further request,
yet sets hasMore to false (the loop break falls through to
setHasMore(false), HRDirectory.tsx line 404) instead of leaving it true;
the attendance tracker discards the accumulated set and sets the error
state, leaving hasMore true, and auto-loading stops only because the
cleared list fails the effect guard. -/
theorem C2_later_failure_behavior :
    (dirRun (failAtSrv 60 cacheNever (mkDb 130)) 9).1.employees.length = 60 ∧
    (dirRun (failAtSrv 60 cacheNever (mkDb 130)) 9).1.hasMore = false ∧
    (dirRun (failAtSrv 60 cacheNever (mkDb 130)) 9).2.length = 3 ∧
    (atRun (failAtSrv 60 cacheNever (mkDb 130)) 9).1.attendanceData = [] ∧
    (atRun (failAtSrv 60 cacheNever (mkDb 130)) 9).1.hasMore = true ∧
    (atRun (failAtSrv 60 cacheNever (mkDb 130)) 9).2.length = 3 := by
  decide

/-- C3, counterexample.  The claim asserts stale responses are dropped.
The attendance tracker has no session epoch: mount under filter 1 with its
request still in flight, change to filter 2, let filter 2's response land
(accumulated = [freshRec]), then let the old filter-1 response land - its
continuation runs unconditionally and replaces the accumulated set with the
stale page, so the filter-2 session displays the stale record. -/
theorem C3_counterexample :
    (atAsyncRun (atAsyncStart 1)
      [.changeFilter 2, .deliver 1 (.ok freshPage),
       .deliver 0 (.ok stalePage)]).attendanceData = [staleRec] ∧
    (atAsyncRun (atAsyncStart 1)
      [.changeFilter 2, .deliver 1 (.ok freshPage),
       .deliver 0 (.ok stalePage)]).filter = 2 := by
  decide

/-- C3, amended.  A response belonging to a superseded session is not
dropped: whenever any in-flight request's nonempty-page response arrives,
the continuation installs that page as the accumulated set regardless of
the filter the request was issued under and of the filter now current -
the delivery step never consults the issuing filter. -/
theorem C3_stale_response_applied (s : ATAsync) (i : Nat) (p : Page)
    (hin : i < s.inflight.length) (hne : ¬ p.results = []) :
    (atAsyncStep s (.deliver i (.ok p))).attendanceData = p.results := by
  unfold atAsyncStep
  dsimp only
  rw [if_pos hin, if_neg hne]

/-- C3, witness: the amended theorem applied to the stale delivery of the
counterexample trace. -/
theorem C3_stale_response_applied_witness :
    (atAsyncStep (atAsyncStep (atAsyncStart 1) (.changeFilter 2))
      (.deliver 0 (.ok stalePage))).attendanceData = stalePage.results :=
  C3_stale_response_applied
    (atAsyncStep (atAsyncStart 1) (.changeFilter 2)) 0 stalePage
    (by decide) (by decide)

/-- C4, counterexample.  The claim asserts the single further fetch carries
limit = ALL (the 0 all-remaining sentinel).  The directory's
fetchAllRemainingAtOnce sends limit equal to the remaining record count
(HRDirectory.tsx line 207): with total 130 and a cached first page the
second and last request is offset 30 with limit 100, not the sentinel. -/
theorem C4_counterexample :
    (dirRun (honestSrv cacheAlways (mkDb 130)) 9).2 =
      [⟨0, 0, 30, 0⟩, ⟨100, 30, 100, 30⟩] := by
  decide

/-- C4, amended.  With a cached first page reporting total 130 > 30 and
more data, each loader issues exactly 2 requests and completes: the
attendance tracker's second request starts at nextOffset 30 and carries the
limit = 0 all-remaining sentinel; the directory's second request starts at
nextOffset 30 and carries limit = 100, the exact remaining count. -/
theorem C4_bulk_escalation_two_requests :
    (atRun (honestSrv cacheAlways (mkDb 130)) 9).2 =
      [⟨0, 0, 30, 0⟩, ⟨100, 30, 0, 30⟩] ∧
    (atRun (honestSrv cacheAlways (mkDb 130)) 9).1.attendanceData.length
        = 130 ∧
    (atRun (honestSrv cacheAlways (mkDb 130)) 9).1.hasMore = false ∧
    (dirRun (honestSrv cacheAlways (mkDb 130)) 9).2 =
      [⟨0, 0, 30, 0⟩, ⟨100, 30, 100, 30⟩] ∧
    (dirRun (honestSrv cacheAlways (mkDb 130)) 9).1.employees.length = 130 ∧
    (dirRun (honestSrv cacheAlways (mkDb 130)) 9).1.hasMore = false := by
  decide

/-- C5.  With an uncached first page and a 75-record backend, both loaders
issue exactly the request sequence (offset 0, limit 30), (offset 30,
limit 30), (offset 60, limit 30) - each later batch after the fixed 500 ms
inter-batch delay - and end complete with 75 accumulated records. -/
theorem C5_trickle_sequence :
    (atRun (honestSrv cacheNever (mkDb 75)) 9).2 =
      [⟨0, 0, 30, 0⟩, ⟨500, 30, 30, 30⟩, ⟨500, 60, 30, 60⟩] ∧
    (atRun (honestSrv cacheNever (mkDb 75)) 9).1.attendanceData.length = 75 ∧
    (atRun (honestSrv cacheNever (mkDb 75)) 9).1.hasMore = false ∧
    (dirRun (honestSrv cacheNever (mkDb 75)) 9).2 =
      [⟨0, 0, 30, 0⟩, ⟨500, 30, 30, 30⟩, ⟨500, 60, 30, 60⟩] ∧
    (dirRun (honestSrv cacheNever (mkDb 75)) 9).1.employees.length = 75 ∧
    (dirRun (honestSrv cacheNever (mkDb 75)) 9).1.hasMore = false := by
  decide

/-- C6, counterexample.  The claim asserts that a cache hit on any later
trickle batch switches the session to bulk remainder.  The directory loop
only escalates when currentOffset === startOffset (HRDirectory.tsx line
290), i.e. on the first background batch: with the cache hit arriving on
the batch at offset 60 of a 130-record session, the response at offset 60
reports cached = true, yet the loader continues with plain limit-30
batches at offsets 90 and 120 and never issues a bulk request. -/
theorem C6_counterexample :
    (dirRun (honestSrv (cacheAt 60) (mkDb 130)) 9).2.map
        (fun r => (r.offset, r.limit)) =
      [(0, 30), (30, 30), (60, 30), (90, 30), (120, 30)] ∧
    (honestSrv (cacheAt 60) (mkDb 130) 60 BATCH_SIZE).cachedFlag = true := by
  decide

/-- C6, amended.  Mid-flight escalation exists only in the directory and
only for the first background batch: when the batch at offset 30 reports a
cache hit, the remaining session is fetched in one bulk request (offset 60,
limit 70 = the remaining count, after a 50 ms delay) and the session
completes - the switch happens once and is never reverted.  A cache hit on
any later batch is ignored, and the attendance tracker never escalates
mid-flight at all (its cached check lives only in the initial-load
branch). -/
theorem C6_first_batch_escalation :
    (dirRun (honestSrv (cacheAt 30) (mkDb 130)) 9).2 =
      [⟨0, 0, 30, 0⟩, ⟨500, 30, 30, 30⟩, ⟨50, 60, 70, 60⟩] ∧
    (dirRun (honestSrv (cacheAt 30) (mkDb 130)) 9).1.employees.length
        = 130 ∧
    (dirRun (honestSrv (cacheAt 30) (mkDb 130)) 9).1.hasMore = false ∧
    (atRun (honestSrv (cacheAt 60) (mkDb 130)) 9).2.map
        (fun r => (r.offset, r.limit)) =
      [(0, 30), (30, 30), (60, 30), (90, 30), (120, 30)] := by
  decide

/-- C7, counterexample.  The claim asserts each request's offset equals the
records accumulated at issue time.  The directory advances its offset by
BATCH_SIZE regardless of how many incoming records survived dedup: when the
page at offset 30 contains a duplicate of a record from page 0 (an honest
read of a 61-row table whose row 30 duplicates row 0), the third request is
issued at offset 60 while only 59 records are accumulated. -/
theorem C7_counterexample :
    (dirRun (honestSrv cacheNever (mkDbDup 61 30)) 9).2.map
        (fun r => (r.offset, r.accAtIssue)) =
      [(0, 0), (30, 30), (60, 59)] := by
  decide

/-- C7, amended.  The offsets requested within one session are
non-decreasing for both loaders over any backend whatsoever; and over an
honest backend serving a collision-free record list (so that no batch loses
records to dedup and every non-final page is full), each request's offset
moreover equals the number of records accumulated at the moment it is
issued. -/
theorem C7_offsets_monotone_and_aligned :
    (∀ srv fuel,
      List.Chain' (· ≤ ·) ((atRun srv fuel).2.map Req.offset) ∧
      List.Chain' (· ≤ ·) ((dirRun srv fuel).2.map Req.offset)) ∧
    (∀ c db fuel, NoCollisions db →
      db.length ≤ BATCH_SIZE + BATCH_SIZE * fuel →
      (∀ r ∈ (atRun (honestSrv c db) fuel).2, r.offset = r.accAtIssue) ∧
      (∀ r ∈ (dirRun (honestSrv c db) fuel).2, r.offset = r.accAtIssue)) := by
  constructor
  · intro srv fuel
    exact ⟨atRun_offsets srv fuel, dirRun_offsets srv fuel⟩
  · intro c db fuel hdb hfuel
    exact ⟨(atRun_honest c db fuel hfuel).2.2.2,
           (dirRun_honest c db hdb fuel hfuel).2.2.2.2⟩

/-- C7, witness: the amended theorem instantiated at a concrete honest
backend. -/
theorem C7_offsets_monotone_and_aligned_witness :
    List.Chain' (· ≤ ·)
      ((dirRun (honestSrv cacheNever (mkDb 75)) 9).2.map Req.offset) ∧
    ∀ r ∈ (dirRun (honestSrv cacheNever (mkDb 75)) 9).2,
      r.offset = r.accAtIssue :=
  ⟨(C7_offsets_monotone_and_aligned.1 (honestSrv cacheNever (mkDb 75)) 9).2,
   (C7_offsets_monotone_and_aligned.2 cacheNever (mkDb 75) 9 (by decide)
     (by decide)).2⟩

/-- C8, counterexample.  The claim asserts complete implies
accumulated.size = total.  In the directory, a failed background batch
breaks the loop and falls through to setHasMore(false): with 60 matching
records and the request at offset 30 failing, the session ends with
hasMore = false (complete) while holding 30 of the 60 records. -/
theorem C8_counterexample :
    (dirRun (failAtSrv 30 cacheNever (mkDb 60)) 9).1.hasMore = false ∧
    (dirRun (failAtSrv 30 cacheNever (mkDb 60)) 9).1.totalCount = 60 ∧
    (dirRun (failAtSrv 30 cacheNever (mkDb 60)) 9).1.employees.length
        = 30 := by
  decide

/-- C8, amended.  When every fetch succeeds and the backend reports honest
pages over a collision-free record list, both loaders do run every session
to completion with accumulated.size = total, whatever cache-hit pattern
(trickle-only, bulk-escalated or mid-flight-escalated) the session takes;
but a later-batch failure in the directory produces complete = true with
fewer than total records (see the counterexample), so the claim holds only
for failure-free sessions. -/
theorem C8_complete_means_total (c : Nat → Bool) (db : List Rec)
    (fuel : Nat) (hdb : NoCollisions db)
    (hfuel : db.length ≤ BATCH_SIZE + BATCH_SIZE * fuel) :
    ((dirRun (honestSrv c db) fuel).1.hasMore = false ∧
     (dirRun (honestSrv c db) fuel).1.employees.length =
       (dirRun (honestSrv c db) fuel).1.totalCount) ∧
    ((atRun (honestSrv c db) fuel).1.hasMore = false ∧
     (atRun (honestSrv c db) fuel).1.attendanceData.length =
       (atRun (honestSrv c db) fuel).1.totalCount) := by
  have hd := dirRun_honest c db hdb fuel hfuel
  have ha := atRun_honest c db fuel hfuel
  refine ⟨⟨hd.2.1, ?_⟩, ⟨ha.2.1, ?_⟩⟩
  · rw [hd.1, hd.2.2.1]
  · rw [ha.1, ha.2.2.1]

/-- C8, witness: a 130-record honest cached backend, both loaders. -/
theorem C8_complete_means_total_witness :
    ((dirRun (honestSrv cacheAlways (mkDb 130)) 9).1.hasMore = false ∧
     (dirRun (honestSrv cacheAlways (mkDb 130)) 9).1.employees.length =
       (dirRun (honestSrv cacheAlways (mkDb 130)) 9).1.totalCount) ∧
    ((atRun (honestSrv cacheAlways (mkDb 130)) 9).1.hasMore = false ∧
     (atRun (honestSrv cacheAlways (mkDb 130)) 9).1.attendanceData.length =
       (atRun (honestSrv cacheAlways (mkDb 130)) 9).1.totalCount) :=
  C8_complete_means_total cacheAlways (mkDb 130) 9 (by decide) (by decide)

/-- C9.  In the attendance tracker, any successful fetch whose response
carries zero records - the initial page or a later load-more batch alike -
sets the error state and replaces the entire accumulated set with the
empty list (lines 288-308 run before the merge result is kept). -/
theorem C9_empty_page_clears_data (s : ATState) (p : Page)
    (hp : p.results = []) :
    ((atLoadMoreMerge s p).attendanceData = [] ∧
     (atLoadMoreMerge s p).error = true) ∧
    ((atInitialMerge p).attendanceData = [] ∧
     (atInitialMerge p).error = true) := by
  unfold atLoadMoreMerge atInitialMerge
  rw [if_pos hp, if_pos hp]
  exact ⟨⟨rfl, rfl⟩, ⟨rfl, rfl⟩⟩

/-- C9, witness: an empty later page discards a nonempty accumulated set. -/
theorem C9_empty_page_clears_data_witness :
    ((atLoadMoreMerge
        { atInit with attendanceData := [{ id := 1, employee_id := "1" }] }
        emptyPage).attendanceData = [] ∧
     (atLoadMoreMerge
        { atInit with attendanceData := [{ id := 1, employee_id := "1" }] }
        emptyPage).error = true) ∧
    ((atInitialMerge emptyPage).attendanceData = [] ∧
     (atInitialMerge emptyPage).error = true) :=
  C9_empty_page_clears_data
    { atInit with attendanceData := [{ id := 1, employee_id := "1" }] }
    emptyPage rfl

/-- C10.  For a custom_month session the initial fetch rewrites
time_period to "custom" while fetchRemainingRecords sends "custom_month"
verbatim, so the two requests of one session carry different time_period
values even though their month and year parameters agree. -/
theorem C10_custom_month_param_mismatch (month year off1 off2 : Nat) :
    (atInitialParamsCustomMonth month year off1).lookup "time_period"
        = some "custom" ∧
    (atRemainingParamsCustomMonth month year off2).lookup "time_period"
        = some "custom_month" ∧
    (atInitialParamsCustomMonth month year off1).lookup "time_period" ≠
      (atRemainingParamsCustomMonth month year off2).lookup "time_period" ∧
    (atInitialParamsCustomMonth month year off1).lookup "month"
        = (atRemainingParamsCustomMonth month year off2).lookup "month" ∧
    (atInitialParamsCustomMonth month year off1).lookup "year"
        = (atRemainingParamsCustomMonth month year off2).lookup "year" := by
  refine ⟨rfl, rfl, ?_, rfl, rfl⟩
  intro h
  rw [show (atInitialParamsCustomMonth month year off1).lookup "time_period"
        = some "custom" from rfl,
      show (atRemainingParamsCustomMonth month year off2).lookup "time_period"
        = some "custom_month" from rfl] at h
  exact absurd h (by decide)

end HRMS
